import Mathlib

set_option maxHeartbeats 1000000

/-
Verification development for the two scripts of the repository:

  scripts/generate_changed_results.py   (namespace Gen)
  scripts/verify_pr_updates_results.py  (namespace Verify)

Python strings are modelled as Lean String values.  The string primitives
the scripts use (str.split, str.strip, str.lstrip, str.startswith,
str.endswith, str.splitlines with newline-separated text) are implemented
structurally on the underlying character list, so every definition
evaluates by kernel reduction on concrete inputs.

Effects are modelled explicitly: subprocess results, directory listings and
path existence are oracles packaged in a World structure, and the side
effects a run performs (directory deletion/creation, subprocess invocation,
file writes) are recorded as a list of Event values, so that statements
about "what was executed" and "what was written" are statements about the
produced trace.  A Python exception raised by run_cmd is an Except.error
carrying the exception message together with the trace accumulated up to
(and including) the failing invocation.
-/

/-- Python str.splitlines for newline-separated text: the list of lines,
with no trailing empty line when the text ends in a newline, and no lines
at all for the empty string. -/
def splitChAux (c : Char) : List Char → List Char → List (List Char)
  | [], acc => [acc.reverse]
  | a :: as, acc =>
    if a = c then acc.reverse :: splitChAux c as []
    else splitChAux c as (a :: acc)

/-- Split a character list at every occurrence of the character c. -/
def splitCh (c : Char) (l : List Char) : List (List Char) :=
  splitChAux c l []

/-- Python str.splitlines (newline-separated). -/
def pySplitlines (s : String) : List String :=
  match s.data with
  | [] => []
  | l =>
    let parts := (splitCh '\n' l).map String.mk
    if parts.getLast? = some "" then parts.dropLast else parts

/-- Python line.split("\t", 1): None when the line has no tab, otherwise
the text before the first tab and the text after it. -/
def splitFirstTab (line : String) : Option (String × String) :=
  match line.data.span (fun c => c != '\t') with
  | (_, []) => none
  | (meta, _ :: rest) => some (String.mk meta, String.mk rest)

/-- Worker for Python str.split() with no argument. -/
def wsSplitAux : List Char → List Char → List (List Char)
  | [], acc => if acc.isEmpty then [] else [acc.reverse]
  | c :: cs, acc =>
    if c.isWhitespace then
      if acc.isEmpty then wsSplitAux cs [] else acc.reverse :: wsSplitAux cs []
    else wsSplitAux cs (c :: acc)

/-- Python str.split() with no argument: split on whitespace runs,
discarding empty fields. -/
def pyWsSplit (s : String) : List String :=
  (wsSplitAux s.data []).map String.mk

/-- Python s.lstrip(":"): drop leading colons. -/
def pyLstripColon (s : String) : String :=
  String.mk (s.data.dropWhile (fun c => c == ':'))

/-- Python str.strip() with no argument: drop leading and trailing
whitespace. -/
def pyStrip (s : String) : String :=
  String.mk (((s.data.dropWhile Char.isWhitespace).reverse.dropWhile Char.isWhitespace).reverse)

/-- Python s.startswith(pre). -/
def pyStartsWith (s pre : String) : Bool :=
  pre.data.isPrefixOf s.data

/-- Python s.endswith(suf). -/
def pyEndsWith (s suf : String) : Bool :=
  suf.data.reverse.isPrefixOf s.data.reverse

/-- Code-point comparison of characters, as Python string comparison uses. -/
def lexLe : List Char → List Char → Bool
  | [], _ => true
  | _ :: _, [] => false
  | a :: as, b :: bs =>
    if a = b then lexLe as bs
    else Nat.blt a.toNat b.toNat

/-- Python string ordering (lexicographic on code points). -/
def strLe (a b : String) : Bool := lexLe a.data b.data

/-- Insertion into a sorted list of strings. -/
def insertSorted (x : String) : List String → List String
  | [] => [x]
  | y :: ys => if strLe x y then x :: y :: ys else y :: insertSorted x ys

/-- Python sorted() on a list of strings (insertion sort; only the
membership and order semantics matter). -/
def sortStrings : List String → List String
  | [] => []
  | x :: xs => insertSorted x (sortStrings xs)

/-- Worker for dedup. -/
def dedupAux (seen : List String) : List String → List String
  | [] => []
  | x :: xs =>
    if seen.contains x then dedupAux seen xs
    else x :: dedupAux (x :: seen) xs

/-- Keep-first duplicate removal; models the passage of a Python list
through set(). -/
def dedup (l : List String) : List String := dedupAux [] l

/-- Python " ".join(cmd). -/
def joinSpace : List String → String
  | [] => ""
  | [s] => s
  | s :: rest => s ++ " " ++ joinSpace rest

namespace Gen

/-- Result of subprocess.run with captured output. -/
structure CmdResult where
  returncode : Int
  stdout : String
  stderr : String
deriving DecidableEq, Repr

/-- Observable side effects of one orchestration pass:
shutil.rmtree, Path.mkdir, a subprocess invocation with its working
directory, and a file write (write is never produced by the code in
generate_changed_results.py; it exists so that "the file is never written"
is expressible, and is produced by the spec-modelled metrics-store
aggregation fallback). -/
inductive Event where
  | rmtree (path : String)
  | mkdir (path : String)
  | runProc (cmd : List String) (cwd : Option String)
  | write (path : String) (content : String)
deriving DecidableEq, Repr

/-- A raised RuntimeError: the exception message plus the event trace
accumulated up to and including the failing invocation. -/
structure Failure where
  msg : String
  trace : List Event
deriving DecidableEq, Repr

/-- scripts/generate_changed_results.py, dataclass Toolchain. -/
structure Toolchain where
  language : String
  runner : String
  aggregator : String
deriving DecidableEq, Repr

/-- Oracles for the environment one pass runs in: the (pre-pass) file
system, the outcome of every subprocess invocation, the raw git tree-diff
output, and the two environment variables. -/
structure World where
  isDir : String → Bool
  listDir : String → List String
  pathExists : String → Bool
  exec : List String → Option String → CmdResult
  gitDiffRaw : String → String → String
  envBase : Option String
  envHead : Option String

/-- ROOT = Path(__file__).resolve().parents[1], an arbitrary fixed root. -/
def ROOT : String := "/repo"

/-- RUNS_DIR = ROOT / ".runs". -/
def RUNS_DIR : String := ROOT ++ "/.runs"

/-- Path joining (Path a / b). -/
def pjoin (a b : String) : String := a ++ "/" ++ b

/-- Path(p).name: the last path segment. -/
def baseName (p : String) : String :=
  ((splitCh '/' p.data).map String.mk).getLastD ""

/-- The RuntimeError message of run_cmd: the failing command, its exit
code, and its stripped stderr, or stripped stdout when that is empty. -/
def cmdFailMsg (cmd : List String) (r : CmdResult) : String :=
  "Command failed (" ++ toString r.returncode ++ "): " ++ joinSpace cmd ++ "\n" ++
    (if pyStrip r.stderr = "" then pyStrip r.stdout else pyStrip r.stderr)

/-- run_cmd: invoke the command (recording the invocation in the trace) and
raise carrying cmdFailMsg when the exit status is nonzero.  No call site in
the script passes the env keyword, so the env merging is not modelled. -/
def runCmd (W : World) (cmd : List String) (cwd : Option String) : Except Failure (List Event) :=
  let r := W.exec cmd cwd
  if r.returncode ≠ 0 then .error ⟨cmdFailMsg cmd r, [.runProc cmd cwd]⟩
  else .ok [.runProc cmd cwd]

/-- One line of the raw diff text, as consumed by the loop body of
changed_gitlinks in generate_changed_results.py: split on the first tab
(lines without a tab are skipped); split the metadata on whitespace (fewer
than three fields is skipped); keep the stripped path when the old mode
(with leading colon removed) and the new mode both equal 160000. -/
def gitlinkPathOfLine (line : String) : Option String :=
  match splitFirstTab line with
  | none => none
  | some (meta, path) =>
    let meta_parts := pyWsSplit meta
    if meta_parts.length < 3 then none
    else
      let old_mode := pyLstripColon (meta_parts.getD 0 "")
      let new_mode := meta_parts.getD 1 ""
      if old_mode = "160000" ∧ new_mode = "160000" then some (pyStrip path)
      else none

/-- changed_gitlinks of generate_changed_results.py, as a function of the
raw output of git diff --raw.  The Python set is modelled by the list of
added elements; only membership is meaningful. -/
def changed_gitlinks (raw : String) : List String :=
  (pySplitlines raw).filterMap gitlinkPathOfLine

/-- list_rule_benchmarks: the sorted immediate subdirectories of
ROOT/benchmarks that contain a .git marker, or [] when the benchmarks root
is not a directory. -/
def list_rule_benchmarks (W : World) : List String :=
  let bench_root := pjoin ROOT "benchmarks"
  if W.isDir bench_root then
    ((sortStrings (W.listDir bench_root)).filter (fun name =>
        W.isDir (pjoin bench_root name) &&
        W.pathExists (pjoin (pjoin bench_root name) ".git"))).map
      (fun name => pjoin bench_root name)
  else []

/-- find_toolchains: for each sorted immediate subdirectory, the runner is
run_all.sh when that exists and otherwise run_all, the aggregator is
generate_results.py, and the subdirectory contributes a Toolchain exactly
when both resolved paths exist. -/
def find_toolchains (W : World) (benchmark_dir : String) : List Toolchain :=
  (sortStrings (W.listDir benchmark_dir)).filterMap (fun name =>
    let child := pjoin benchmark_dir name
    if W.isDir child then
      let runner :=
        if W.pathExists (pjoin child "run_all.sh") then pjoin child "run_all.sh"
        else pjoin child "run_all"
      let aggregator := pjoin child "generate_results.py"
      if W.pathExists runner && W.pathExists aggregator then
        some ⟨name, runner, aggregator⟩
      else none
    else none)

/-- ensure_results_path: mkdir -p ROOT/rules/{rule}/{language} and return
the RESULTS.md path inside it, together with the trace of the mkdir. -/
def ensure_results_path (rule language : String) : String × List Event :=
  let out_dir := pjoin (pjoin (pjoin ROOT "rules") rule) language
  (pjoin out_dir "RESULTS.md", [Event.mkdir out_dir])

/-- The scratch area RUNS_DIR/{rule}/{language} of execute_runs. -/
def runsStorage (rule language : String) : String :=
  pjoin (pjoin RUNS_DIR rule) language

/-- The loop body of execute_runs over the remaining iteration numbers:
create the per-iteration output directory and invoke the runner through
bash with that directory as its sole positional argument, with the
toolchain directory as the working directory. -/
def runAllIters (W : World) (storage runner working_dir : String) :
    List Nat → List Event → Except Failure (List Event)
  | [], acc => .ok acc
  | i :: rest, acc =>
    let run_output_dir := pjoin storage ("run_" ++ toString i)
    match runCmd W ["bash", runner, run_output_dir] (some working_dir) with
    | .error f => .error ⟨f.msg, (acc ++ [.mkdir run_output_dir]) ++ f.trace⟩
    | .ok tr => runAllIters W storage runner working_dir rest ((acc ++ [.mkdir run_output_dir]) ++ tr)

/-- execute_runs: delete the scratch area for this (rule, language) pair
when it exists, recreate it, and run the iterations 1..num_runs; returns
the scratch area path and the trace. -/
def execute_runs (W : World) (rule language runner : String) (num_runs : Nat)
    (working_dir : String) : Except Failure (String × List Event) :=
  let storage := runsStorage rule language
  let pre := (if W.pathExists storage then [Event.rmtree storage] else []) ++ [Event.mkdir storage]
  match runAllIters W storage runner working_dir (List.range' 1 num_runs) pre with
  | .error f => .error f
  | .ok tr => .ok (storage, tr)

/-- aggregate_results: invoke the aggregator with
--input-dir {input_dir} --output {out_path}, in the language directory. -/
def aggregate_results (W : World) (aggregator input_dir out_path working_dir : String) :
    Except Failure (List Event) :=
  runCmd W ["python3", aggregator, "--input-dir", input_dir, "--output", out_path]
    (some working_dir)

/-- The toolchain loop of process_benchmarks for one benchmark: execute
the runs, then ensure the results path and aggregate. -/
def processToolchains (W : World) (bench_path rule : String) (num_runs : Nat) :
    List Toolchain → List Event → Except Failure (List Event)
  | [], acc => .ok acc
  | tc :: rest, acc =>
    match execute_runs W rule tc.language tc.runner num_runs (pjoin bench_path tc.language) with
    | .error f => .error ⟨f.msg, acc ++ f.trace⟩
    | .ok (runs_dir, tr) =>
      let out := ensure_results_path rule tc.language
      match aggregate_results W tc.aggregator runs_dir out.1 (pjoin bench_path tc.language) with
      | .error f => .error ⟨f.msg, ((acc ++ tr) ++ out.2) ++ f.trace⟩
      | .ok tr2 => processToolchains W bench_path rule num_runs rest (((acc ++ tr) ++ out.2) ++ tr2)

/-- The benchmark loop of process_benchmarks.  A benchmark with no
toolchains is skipped (a message on stderr, no events). -/
def processBenchList (W : World) (num_runs : Nat) :
    List String → List Event → Except Failure (List Event)
  | [], acc => .ok acc
  | bench_path :: rest, acc =>
    match processToolchains W bench_path (baseName bench_path) num_runs
        (find_toolchains W bench_path) acc with
    | .error f => .error f
    | .ok acc2 => processBenchList W num_runs rest acc2

/-- process_benchmarks of generate_changed_results.py. -/
def process_benchmarks (W : World) (benchmarks_paths : List String) (num_runs : Nat) :
    Except Failure (List Event) :=
  processBenchList W num_runs benchmarks_paths []

/-- The parsed command line of generate_changed_results.py.  bench = []
models the argparse default None (and an empty append list is equally
falsy in the script). -/
structure Args where
  base : Option String
  head : Option String
  check : Bool
  all : Bool
  bench : List String
  runs : Nat

/-- Python x or y over optional strings, with empty-string falsiness:
models args.base or os.getenv("BASE_SHA"). -/
def pyOrStr (a b : Option String) : Option String :=
  match a with
  | some s => if s = "" then b else some s
  | none => b

/-- Python truthiness of a string-or-None value. -/
def truthy (a : Option String) : Bool :=
  match a with
  | some s => if s = "" then false else true
  | none => false

/-- The selection portion of main: --all takes every discovered benchmark;
an explicit --bench list is matched against discovered rule names
(unmatched names are reported on stderr and skipped); otherwise a resolved
base/head pair drives change detection: all benchmarks when _metrics
changed, else ROOT/{path} for every changed gitlink path under
benchmarks/; with no resolved pair nothing is selected. -/
def selectBenchmarks (W : World) (args : Args) : List String :=
  if args.all then list_rule_benchmarks W
  else if args.bench ≠ [] then
    args.bench.filterMap (fun name =>
      (list_rule_benchmarks W).find? (fun p => baseName p == name))
  else
    let base := pyOrStr args.base W.envBase
    let head := pyOrStr args.head W.envHead
    if truthy base && truthy head then
      let changed := changed_gitlinks (W.gitDiffRaw (base.getD "") (head.getD ""))
      if changed.contains "_metrics" then list_rule_benchmarks W
      else
        (sortStrings (dedup changed)).filterMap (fun p =>
          if pyStartsWith p "benchmarks/" then some (pjoin ROOT p) else none)
    else []

/-- main of generate_changed_results.py: select, process when the
selection is nonempty, then run git diff --exit-code when --check was
given; returns 0 unless a RuntimeError propagates. -/
def main (W : World) (args : Args) : Except Failure (Nat × List Event) :=
  let benchs := selectBenchmarks W args
  match (if benchs.isEmpty then Except.ok [] else process_benchmarks W benchs args.runs) with
  | .error f => .error f
  | .ok tr =>
    if args.check then
      match runCmd W ["git", "diff", "--exit-code"] none with
      | .error f => .error ⟨f.msg, tr ++ f.trace⟩
      | .ok tr2 => .ok (0, tr ++ tr2)
    else .ok (0, tr)

/-- The process exit status: main's return value, or 1 when a RuntimeError
propagates out of main (an uncaught Python exception exits with status 1). -/
def mainExit (W : World) (args : Args) : Nat :=
  match main W args with
  | .ok (c, _) => c
  | .error _ => 1

end Gen

namespace Verify

/-- scripts/verify_pr_updates_results.py, dataclass GitlinkChange. -/
structure GitlinkChange where
  path : String
deriving DecidableEq, Repr

/-- One line of the raw diff text, as consumed by the loop body of
changed_gitlinks in verify_pr_updates_results.py (the verifier's own copy
of the parsing loop). -/
def gitlinkOfLine (line : String) : Option GitlinkChange :=
  match splitFirstTab line with
  | none => none
  | some (meta, path) =>
    let meta_parts := pyWsSplit meta
    if meta_parts.length < 3 then none
    else
      let old_mode := pyLstripColon (meta_parts.getD 0 "")
      let new_mode := meta_parts.getD 1 ""
      if old_mode = "160000" ∧ new_mode = "160000" then some ⟨pyStrip path⟩
      else none

/-- changed_gitlinks of verify_pr_updates_results.py, as a function of the
raw output of git diff --raw. -/
def changed_gitlinks (raw : String) : List GitlinkChange :=
  (pySplitlines raw).filterMap gitlinkOfLine

/-- changed_paths: the stripped nonempty lines of git diff --name-only
output (a Python set, modelled by the list of its elements). -/
def changed_paths (raw : String) : List String :=
  (pySplitlines raw).filterMap (fun p => if pyStrip p = "" then none else some (pyStrip p))

/-- Python s.split("/", 1) restricted to the two-part case: the text
before the first slash and the text after it. -/
def splitFirstSlash (s : String) : Option (String × String) :=
  match s.data.span (fun c => c != '/') with
  | (_, []) => none
  | (a, _ :: rest) => some (String.mk a, String.mk rest)

/-- gl.path.split("/", 1)[1]; every call site guards with
gl.path.startswith("benchmarks/"), so a slash is always present and the
none branch is unreachable there. -/
def ruleOf (path : String) : String :=
  match splitFirstSlash path with
  | some (_, r) => r
  | none => ""

/-- The per-gitlink check of the verifier's main loop: a _metrics change
requires some changed path under rules/ ending in /RESULTS.md; a
benchmarks/{rule} change requires some changed path under rules/{rule}/
ending in /RESULTS.md; any other path is skipped.  Returns the failure
message, or none when the gitlink passes. -/
def glFailure (changed : List String) (gl : GitlinkChange) : Option String :=
  if gl.path = "_metrics" then
    if changed.any (fun p => pyStartsWith p "rules/" && pyEndsWith p "/RESULTS.md") then none
    else some "Changed _metrics submodule but did not update any rules/**/RESULTS.md"
  else if pyStartsWith gl.path "benchmarks/" then
    let expectedPre := "rules/" ++ ruleOf gl.path ++ "/"
    if changed.any (fun p => pyStartsWith p expectedPre && pyEndsWith p "/RESULTS.md") then none
    else some ("Changed " ++ gl.path ++ " submodule but did not update any " ++
      expectedPre ++ "*/RESULTS.md")
  else none

/-- Oracles for the verifier: the two environment variables and the two
git diff outputs for a base/head pair. -/
structure VWorld where
  envBase : Option String
  envHead : Option String
  diffRaw : String → String → String
  diffNames : String → String → String

/-- The failures list collected by the verifier's main loop. -/
def failuresOf (W : VWorld) (base head : String) : List String :=
  changed_gitlinks (W.diffRaw base head) |>.filterMap
    (glFailure (changed_paths (W.diffNames base head)))

/-- main of verify_pr_updates_results.py: exit 2 when either stripped
environment variable is empty, 0 when there are no gitlink changes,
otherwise 1 exactly when the collected failures list is nonempty. -/
def main (W : VWorld) : Nat :=
  let base := pyStrip (W.envBase.getD "")
  let head := pyStrip (W.envHead.getD "")
  if base = "" ∨ head = "" then 2
  else
    let gitlinks := changed_gitlinks (W.diffRaw base head)
    if gitlinks.isEmpty then 0
    else
      let failures := gitlinks.filterMap (glFailure (changed_paths (W.diffNames base head)))
      if failures.isEmpty then 0 else 1

end Verify

/-- Modelled from the spec: the metrics-store aggregation protocol of the
Aggregator Invoker (section 4.5).  The script implementing this protocol is
part of the repository but is not among the provided source files; only the
run-aggregation variant (aggregate_results in generate_changed_results.py)
is.  Per the spec: a nonzero generator exit is fatal; when the generator
exits successfully but the expected output file was not created, non-empty
standard output is written verbatim as the results file, and if neither the
file nor non-empty standard output exists this is a fatal error naming the
generator.  r is the generator subprocess's result and fileCreated whether
the expected output file exists after the generator ran. -/
def metricsAggregate (r : Gen.CmdResult) (generator out_path : String) (fileCreated : Bool) :
    Except String (List Gen.Event) :=
  if r.returncode ≠ 0 then
    .error (Gen.cmdFailMsg [generator] r)
  else if fileCreated then
    .ok []
  else if r.stdout ≠ "" then
    .ok [Gen.Event.write out_path r.stdout]
  else
    .error ("generator wrote no results file and produced no output: " ++ generator)

/-- A concrete orchestrator world with no environment revisions and a
dirty working tree (git diff --exit-code exits 1). -/
def W2 : Gen.World :=
  { isDir := fun _ => false, listDir := fun _ => [], pathExists := fun _ => false,
    exec := fun _ _ => { returncode := 1, stdout := "", stderr := "uncommitted changes" },
    gitDiffRaw := fun _ _ => "", envBase := none, envHead := none }

/-- Command line with --check only: no --all, no --bench, no --base or --head. -/
def args2 : Gen.Args :=
  { base := none, head := none, check := true, all := false, bench := [], runs := 1 }

/-- A concrete orchestrator world with revisions in the environment and a
diff showing one changed benchmarks/TDD gitlink. -/
def W3 : Gen.World :=
  { isDir := fun _ => false, listDir := fun _ => [], pathExists := fun _ => false,
    exec := fun _ _ => { returncode := 0, stdout := "", stderr := "" },
    gitDiffRaw := fun _ _ => ":160000 160000 abc def M\tbenchmarks/TDD",
    envBase := some "b", envHead := some "h" }

/-- Empty command line (pure change-driven selection). -/
def args3 : Gen.Args :=
  { base := none, head := none, check := false, all := false, bench := [], runs := 1 }

/-- A concrete orchestrator world: one benchmark TDD with one toolchain go
(runner resolved through the run_all fallback) whose runner exits 1. -/
def W4 : Gen.World :=
  { isDir := fun p =>
      p = "/repo/benchmarks" || p = "/repo/benchmarks/TDD" || p = "/repo/benchmarks/TDD/go"
    listDir := fun p =>
      if p = "/repo/benchmarks" then ["TDD"]
      else if p = "/repo/benchmarks/TDD" then ["go"]
      else []
    pathExists := fun p =>
      p = "/repo/benchmarks/TDD/.git" || p = "/repo/benchmarks/TDD/go/run_all" ||
        p = "/repo/benchmarks/TDD/go/generate_results.py"
    exec := fun cmd _ =>
      if cmd.headD "" = "bash" then { returncode := 1, stdout := "boom", stderr := "runner died" }
      else { returncode := 0, stdout := "", stderr := "" }
    gitDiffRaw := fun _ _ => ""
    envBase := none
    envHead := none }

/-- The failure W4 produces on its first runner invocation. -/
def F4 : Gen.Failure :=
  { msg := "Command failed (1): bash /repo/benchmarks/TDD/go/run_all /repo/.runs/TDD/go/run_1\nrunner died"
    trace := [Gen.Event.mkdir "/repo/.runs/TDD/go",
      Gen.Event.mkdir "/repo/.runs/TDD/go/run_1",
      Gen.Event.runProc ["bash", "/repo/benchmarks/TDD/go/run_all", "/repo/.runs/TDD/go/run_1"]
        (some "/repo/benchmarks/TDD/go")] }

/-- W4 with every subprocess succeeding. -/
def W5 : Gen.World :=
  { isDir := fun p =>
      p = "/repo/benchmarks" || p = "/repo/benchmarks/TDD" || p = "/repo/benchmarks/TDD/go"
    listDir := fun p =>
      if p = "/repo/benchmarks" then ["TDD"]
      else if p = "/repo/benchmarks/TDD" then ["go"]
      else []
    pathExists := fun p =>
      p = "/repo/benchmarks/TDD/.git" || p = "/repo/benchmarks/TDD/go/run_all" ||
        p = "/repo/benchmarks/TDD/go/generate_results.py"
    exec := fun _ _ => { returncode := 0, stdout := "", stderr := "" }
    gitDiffRaw := fun _ _ => ""
    envBase := none
    envHead := none }

/-- The trace execute_runs produces in W5 for (TDD, go) with one run. -/
def TR5 : List Gen.Event :=
  [Gen.Event.mkdir "/repo/.runs/TDD/go",
   Gen.Event.mkdir "/repo/.runs/TDD/go/run_1",
   Gen.Event.runProc ["bash", "/repo/benchmarks/TDD/go/run_all", "/repo/.runs/TDD/go/run_1"]
     (some "/repo/benchmarks/TDD/go")]

/-- A concrete verifier world: one benchmarks/TDD gitlink change, no
results update among the changed paths. -/
def VW1 : Verify.VWorld :=
  { envBase := some "b", envHead := some "h",
    diffRaw := fun _ _ => ":160000 160000 abc def M\tbenchmarks/TDD",
    diffNames := fun _ _ => "README.md" }

/-- A concrete verifier world: one gitlink change at a path that is
neither _metrics nor under benchmarks/. -/
def VW2 : Verify.VWorld :=
  { envBase := some "b", envHead := some "h",
    diffRaw := fun _ _ => ":160000 160000 abc def M\tthirdparty/lib",
    diffNames := fun _ _ => "" }


theorem mem_insertSorted (x a : String) (l : List String) :
    a ∈ insertSorted x l ↔ a = x ∨ a ∈ l := by
  induction l with
  | nil => simp [insertSorted]
  | cons y ys ih =>
    unfold insertSorted
    split
    · simp
    · simp [ih]
      tauto

theorem mem_sortStrings (a : String) (l : List String) :
    a ∈ sortStrings l ↔ a ∈ l := by
  induction l with
  | nil => simp [sortStrings]
  | cons x xs ih => simp [sortStrings, mem_insertSorted, ih]

theorem mem_dedupAux (a : String) (l : List String) : ∀ seen : List String,
    a ∈ dedupAux seen l ↔ a ∈ l ∧ ¬ a ∈ seen := by
  induction l with
  | nil => simp [dedupAux]
  | cons x xs ih =>
    intro seen
    unfold dedupAux
    split
    · rename_i hx
      simp only [List.contains, List.elem_iff] at hx
      rw [ih seen]
      simp only [List.mem_cons]
      constructor
      · rintro ⟨h1, h2⟩
        exact ⟨Or.inr h1, h2⟩
      · rintro ⟨h1 | h1, h2⟩
        · exact absurd (h1 ▸ hx) h2
        · exact ⟨h1, h2⟩
    · rename_i hx
      simp only [List.contains, List.elem_iff] at hx
      simp only [List.mem_cons, ih (x :: seen)]
      by_cases hax : a = x
      · subst hax
        simp [hx]
      · simp only [List.mem_cons, hax, false_or]

theorem mem_dedup (a : String) (l : List String) : a ∈ dedup l ↔ a ∈ l := by
  simp [dedup, mem_dedupAux]

theorem gitlinkPathOfLine_eq_some_iff (line p : String) :
    Gen.gitlinkPathOfLine line = some p ↔
      ∃ meta path, splitFirstTab line = some (meta, path) ∧
        3 ≤ (pyWsSplit meta).length ∧
        pyLstripColon ((pyWsSplit meta).getD 0 "") = "160000" ∧
        (pyWsSplit meta).getD 1 "" = "160000" ∧
        p = pyStrip path := by
  unfold Gen.gitlinkPathOfLine
  rcases h : splitFirstTab line with _ | ⟨meta, path⟩
  · simp
  · simp only [h, Option.some.injEq, Prod.mk.injEq]
    split
    · rename_i hlen
      constructor
      · intro hc
        exact absurd hc (by simp)
      · rintro ⟨m, pa, ⟨hm, hp⟩, h3, _⟩
        subst hm
        subst hp
        omega
    · rename_i hlen
      split
      · rename_i hmode
        constructor
        · intro hc
          exact ⟨meta, path, ⟨rfl, rfl⟩, by omega, hmode.1, hmode.2, (Option.some.inj hc).symm⟩
        · rintro ⟨m, pa, ⟨hm, hp⟩, _, _, _, hps⟩
          subst hm
          subst hp
          simp [hps]
      · rename_i hmode
        constructor
        · intro hc
          exact absurd hc (by simp)
        · rintro ⟨m, pa, ⟨hm, hp⟩, _, hold, hnew, _⟩
          subst hm
          subst hp
          exact absurd ⟨hold, hnew⟩ hmode

/-- C1: for every raw tree-diff text, changed_gitlinks returns exactly the
stripped paths of lines that split at a first tab, whose metadata has at
least three whitespace-separated fields, and whose old mode (after
removing the leading colon) and new mode both equal 160000; every other
line — a type change where one side is not 160000, a pure addition or
deletion, a line with no tab-separated path field, or one with fewer than
three metadata fields — contributes no path, and no line can raise (the
parse is total). -/
theorem changed_gitlinks_exactly_dual_submodule_lines (raw p : String) :
    p ∈ Gen.changed_gitlinks raw ↔
      ∃ line ∈ pySplitlines raw,
        ∃ meta path, splitFirstTab line = some (meta, path) ∧
          3 ≤ (pyWsSplit meta).length ∧
          pyLstripColon ((pyWsSplit meta).getD 0 "") = "160000" ∧
          (pyWsSplit meta).getD 1 "" = "160000" ∧
          p = pyStrip path := by
  unfold Gen.changed_gitlinks
  simp only [List.mem_filterMap, gitlinkPathOfLine_eq_some_iff]

theorem verify_gitlinkOfLine_map_path (line : String) :
    (Verify.gitlinkOfLine line).map Verify.GitlinkChange.path =
      Gen.gitlinkPathOfLine line := by
  unfold Verify.gitlinkOfLine Gen.gitlinkPathOfLine
  rcases h : splitFirstTab line with _ | ⟨meta, path⟩
  · simp
  · simp only
    split
    · rfl
    · split
      · rfl
      · rfl

/-- C8: the orchestrator's changed_gitlinks and the verifier's
changed_gitlinks agree on every raw tree-diff text: the set of paths
returned by the former is exactly the set of paths carried by the
GitlinkChange list returned by the latter. -/
theorem orchestrator_verifier_gitlinks_agree (raw p : String) :
    p ∈ Gen.changed_gitlinks raw ↔
      p ∈ (Verify.changed_gitlinks raw).map Verify.GitlinkChange.path := by
  unfold Gen.changed_gitlinks Verify.changed_gitlinks
  rw [List.map_filterMap]
  simp only [verify_gitlinkOfLine_map_path]

/-- C7: a subdirectory of a benchmark directory is reported as a toolchain
exactly when it is a directory containing generate_results.py together
with a runner resolved by fixed precedence — run_all.sh when present, else
run_all; only run_all (no .sh) with generate_results.py still yields a
toolchain, and a subdirectory missing either the resolved runner or the
generator contributes none. -/
theorem find_toolchains_iff_runner_and_aggregator (W : Gen.World) (dir : String)
    (tc : Gen.Toolchain) :
    tc ∈ Gen.find_toolchains W dir ↔
      (tc.language ∈ W.listDir dir ∧
       W.isDir (Gen.pjoin dir tc.language) = true ∧
       W.pathExists (Gen.pjoin (Gen.pjoin dir tc.language) "generate_results.py") = true ∧
       (W.pathExists (Gen.pjoin (Gen.pjoin dir tc.language) "run_all.sh") = true ∨
        W.pathExists (Gen.pjoin (Gen.pjoin dir tc.language) "run_all") = true) ∧
       tc.runner = (if W.pathExists (Gen.pjoin (Gen.pjoin dir tc.language) "run_all.sh") then
           Gen.pjoin (Gen.pjoin dir tc.language) "run_all.sh"
         else Gen.pjoin (Gen.pjoin dir tc.language) "run_all") ∧
       tc.aggregator = Gen.pjoin (Gen.pjoin dir tc.language) "generate_results.py") := by
  unfold Gen.find_toolchains
  rw [List.mem_filterMap]
  constructor
  · rintro ⟨name, hmem, hf⟩
    rw [mem_sortStrings] at hmem
    by_cases hd : W.isDir (Gen.pjoin dir name) = true
    · simp only [hd, if_true] at hf
      by_cases he : (W.pathExists (if W.pathExists (Gen.pjoin (Gen.pjoin dir name) "run_all.sh")
            then Gen.pjoin (Gen.pjoin dir name) "run_all.sh"
            else Gen.pjoin (Gen.pjoin dir name) "run_all") &&
          W.pathExists (Gen.pjoin (Gen.pjoin dir name) "generate_results.py")) = true
      · rw [if_pos he] at hf
        obtain ⟨hrun, hagg⟩ := Bool.and_eq_true_iff.mp he
        cases hf
        refine ⟨hmem, hd, hagg, ?_, rfl, rfl⟩
        by_cases hsh : W.pathExists (Gen.pjoin (Gen.pjoin dir name) "run_all.sh") = true
        · exact Or.inl hsh
        · rw [if_neg hsh] at hrun
          exact Or.inr hrun
      · rw [if_neg he] at hf
        cases hf
    · simp only [hd, if_false] at hf
      cases hf
  · rintro ⟨h1, h2, h3, h4, h5, h6⟩
    refine ⟨tc.language, (mem_sortStrings _ _).mpr h1, ?_⟩
    rw [if_pos h2]
    have hrun : W.pathExists (if W.pathExists (Gen.pjoin (Gen.pjoin dir tc.language) "run_all.sh")
        then Gen.pjoin (Gen.pjoin dir tc.language) "run_all.sh"
        else Gen.pjoin (Gen.pjoin dir tc.language) "run_all") = true := by
      by_cases hsh : W.pathExists (Gen.pjoin (Gen.pjoin dir tc.language) "run_all.sh") = true
      · rwa [if_pos hsh]
      · rw [if_neg hsh]
        rcases h4 with h4 | h4
        · exact absurd h4 hsh
        · exact h4
    rw [if_pos (Bool.and_eq_true_iff.mpr ⟨hrun, h3⟩)]
    cases tc
    simp_all

theorem strAppend_data (a b : String) : (a ++ b).data = a.data ++ b.data := by
  cases a
  cases b
  rfl

theorem span_neSlash_append (l2 : List Char) :
    ∀ l1 : List Char, (∀ c ∈ l1, (c != '/') = true) →
      (l1 ++ '/' :: l2).span (fun c => c != '/') = (l1, '/' :: l2) := by
  intro l1
  induction l1 with
  | nil =>
    intro _
    simp [List.span_eq_take_drop]
  | cons c cs ih =>
    intro h
    have hc : (c != '/') = true := h c (by simp)
    have ih2 := ih (fun d hd => h d (by simp [hd]))
    rw [List.span_eq_take_drop] at ih2 ⊢
    simp only [List.cons_append, List.takeWhile_cons, List.dropWhile_cons, hc, if_true]
    simp only [Prod.mk.injEq] at ih2 ⊢
    exact ⟨by rw [ih2.1], ih2.2⟩

theorem splitFirstSlash_append (r : String) :
    Verify.splitFirstSlash ("benchmarks/" ++ r) = some ("benchmarks", r) := by
  unfold Verify.splitFirstSlash
  have hd : ("benchmarks/" ++ r).data = "benchmarks".data ++ '/' :: r.data := by
    rw [strAppend_data]
    have : "benchmarks/".data = "benchmarks".data ++ ['/'] := by decide
    rw [this, List.append_assoc]
    rfl
  rw [hd, span_neSlash_append r.data "benchmarks".data (by decide)]

theorem ruleOf_append (r : String) : Verify.ruleOf ("benchmarks/" ++ r) = r := by
  unfold Verify.ruleOf
  rw [splitFirstSlash_append]

theorem startsWith_benchmarks_iff (s : String) :
    pyStartsWith s "benchmarks/" = true ↔ ∃ r, s = "benchmarks/" ++ r := by
  unfold pyStartsWith
  rw [List.isPrefixOf_iff_prefix]
  constructor
  · rintro ⟨t, ht⟩
    refine ⟨String.mk t, ?_⟩
    cases s with
    | mk d =>
      cases ht
      rfl
  · rintro ⟨r, rfl⟩
    exact ⟨r.data, (strAppend_data _ _).symm⟩

theorem glFailure_isSome_iff (changed : List String) (gl : Verify.GitlinkChange) :
    (Verify.glFailure changed gl).isSome = true ↔
      ((gl.path = "_metrics" ∧
          ¬ ∃ p ∈ changed, pyStartsWith p "rules/" = true ∧
            pyEndsWith p "/RESULTS.md" = true) ∨
       (∃ rest, gl.path = "benchmarks/" ++ rest ∧
          ¬ ∃ p ∈ changed, pyStartsWith p ("rules/" ++ rest ++ "/") = true ∧
            pyEndsWith p "/RESULTS.md" = true)) := by
  unfold Verify.glFailure
  split
  · rename_i hm
    have hnb : ¬ ∃ rest, gl.path = "benchmarks/" ++ rest := by
      rintro ⟨rest, hr⟩
      have : pyStartsWith gl.path "benchmarks/" = true :=
        (startsWith_benchmarks_iff _).mpr ⟨rest, hr⟩
      rw [hm] at this
      exact absurd this (by decide)
    split
    · rename_i hany
      rw [List.any_eq_true] at hany
      simp only [Option.isSome_none, Bool.false_eq_true, false_iff]
      rintro (⟨_, hno⟩ | ⟨rest, hr, _⟩)
      · obtain ⟨x, hx, hpx⟩ := hany
        rw [Bool.and_eq_true] at hpx
        exact hno ⟨x, hx, hpx.1, hpx.2⟩
      · exact hnb ⟨rest, hr⟩
    · rename_i hany
      simp only [Option.isSome_some, true_iff]
      refine Or.inl ⟨hm, ?_⟩
      rintro ⟨p, hp, h1, h2⟩
      exact hany (List.any_eq_true.mpr ⟨p, hp, by rw [Bool.and_eq_true]; exact ⟨h1, h2⟩⟩)
  · rename_i hm
    split
    · rename_i hbs
      obtain ⟨rest, hr⟩ := (startsWith_benchmarks_iff _).mp hbs
      have hrule : Verify.ruleOf gl.path = rest := by rw [hr, ruleOf_append]
      dsimp only
      simp only [hrule]
      split
      · rename_i hany
        rw [List.any_eq_true] at hany
        simp only [Option.isSome_none, Bool.false_eq_true, false_iff]
        rintro (⟨hmm, _⟩ | ⟨rest2, hr2, hno⟩)
        · exact hm hmm
        · have : rest2 = rest := by
            have := hr ▸ hr2
            have h3 : ("benchmarks/" ++ rest2).data = ("benchmarks/" ++ rest).data := by
              rw [← hr2, ← hr]
            rw [strAppend_data, strAppend_data] at h3
            have h4 := List.append_cancel_left h3
            cases rest
            cases rest2
            exact congrArg String.mk h4
          subst this
          obtain ⟨x, hx, hpx⟩ := hany
          rw [Bool.and_eq_true] at hpx
          exact hno ⟨x, hx, hpx.1, hpx.2⟩
      · rename_i hany
        simp only [Option.isSome_some, true_iff]
        refine Or.inr ⟨rest, hr, ?_⟩
        rintro ⟨p, hp, h1, h2⟩
        exact hany (List.any_eq_true.mpr ⟨p, hp, by rw [Bool.and_eq_true]; exact ⟨h1, h2⟩⟩)
    · rename_i hbs
      simp only [Option.isSome_none, Bool.false_eq_true, false_iff]
      rintro (⟨hmm, _⟩ | ⟨rest, hr, _⟩)
      · exact hm hmm
      · exact hbs ((startsWith_benchmarks_iff _).mpr ⟨rest, hr⟩)

theorem length_filterMap_eq_countP {α β : Type} (f : α → Option β) (l : List α) :
    (l.filterMap f).length = l.countP (fun a => (f a).isSome) := by
  induction l with
  | nil => rfl
  | cons x xs ih =>
    rw [List.filterMap_cons, List.countP_cons]
    cases h : f x
    · simp [h, ih]
    · simp [h, ih]

/-- C3: the verifier exits 2 exactly when BASE_SHA or HEAD_SHA is absent
or blank; otherwise it exits 1 exactly when at least one gitlink change
lacks its required results update — a change of benchmarks/{rule} requires
some changed path starting with rules/{rule}/ and ending in /RESULTS.md,
and a change of _metrics requires some changed path starting with rules/
and ending in /RESULTS.md — and exits 0 in every other case, including
when there are no gitlink changes at all; one failure is collected per
violating gitlink change (the failures list has exactly as many entries as
there are violating changes), so every violation is reported together
rather than stopping at the first. -/
theorem verifier_exit_code_spec (W : Verify.VWorld) :
    (Verify.main W = 2 ↔
        (pyStrip (W.envBase.getD "") = "" ∨ pyStrip (W.envHead.getD "") = "")) ∧
    (¬ (pyStrip (W.envBase.getD "") = "" ∨ pyStrip (W.envHead.getD "") = "") →
      ((Verify.main W = 1 ↔
          ∃ gl ∈ Verify.changed_gitlinks
              (W.diffRaw (pyStrip (W.envBase.getD "")) (pyStrip (W.envHead.getD ""))),
            ((gl.path = "_metrics" ∧
                ¬ ∃ p ∈ Verify.changed_paths
                    (W.diffNames (pyStrip (W.envBase.getD "")) (pyStrip (W.envHead.getD ""))),
                  pyStartsWith p "rules/" = true ∧ pyEndsWith p "/RESULTS.md" = true) ∨
             (∃ rest, gl.path = "benchmarks/" ++ rest ∧
                ¬ ∃ p ∈ Verify.changed_paths
                    (W.diffNames (pyStrip (W.envBase.getD "")) (pyStrip (W.envHead.getD ""))),
                  pyStartsWith p ("rules/" ++ rest ++ "/") = true ∧
                    pyEndsWith p "/RESULTS.md" = true))) ∧
       ((¬ ∃ gl ∈ Verify.changed_gitlinks
              (W.diffRaw (pyStrip (W.envBase.getD "")) (pyStrip (W.envHead.getD ""))),
            ((gl.path = "_metrics" ∧
                ¬ ∃ p ∈ Verify.changed_paths
                    (W.diffNames (pyStrip (W.envBase.getD "")) (pyStrip (W.envHead.getD ""))),
                  pyStartsWith p "rules/" = true ∧ pyEndsWith p "/RESULTS.md" = true) ∨
             (∃ rest, gl.path = "benchmarks/" ++ rest ∧
                ¬ ∃ p ∈ Verify.changed_paths
                    (W.diffNames (pyStrip (W.envBase.getD "")) (pyStrip (W.envHead.getD ""))),
                  pyStartsWith p ("rules/" ++ rest ++ "/") = true ∧
                    pyEndsWith p "/RESULTS.md" = true))) →
          Verify.main W = 0) ∧
       (Verify.failuresOf W (pyStrip (W.envBase.getD "")) (pyStrip (W.envHead.getD ""))).length =
         (Verify.changed_gitlinks
             (W.diffRaw (pyStrip (W.envBase.getD "")) (pyStrip (W.envHead.getD "")))).countP
           (fun gl =>
             (Verify.glFailure
                 (Verify.changed_paths
                   (W.diffNames (pyStrip (W.envBase.getD "")) (pyStrip (W.envHead.getD ""))))
                 gl).isSome))) := by
  by_cases hblank :
      (pyStrip (W.envBase.getD "") = "" ∨ pyStrip (W.envHead.getD "") = "")
  · have hm : Verify.main W = 2 := by
      unfold Verify.main
      dsimp only
      rw [if_pos hblank]
    exact ⟨⟨fun _ => hblank, fun _ => hm⟩, fun hc => absurd hblank hc⟩
  · have hm : Verify.main W =
        (if (Verify.changed_gitlinks
            (W.diffRaw (pyStrip (W.envBase.getD "")) (pyStrip (W.envHead.getD "")))).isEmpty
          then 0
          else
            if ((Verify.changed_gitlinks
                  (W.diffRaw (pyStrip (W.envBase.getD "")) (pyStrip (W.envHead.getD "")))).filterMap
                (Verify.glFailure
                  (Verify.changed_paths
                    (W.diffNames (pyStrip (W.envBase.getD "")) (pyStrip (W.envHead.getD "")))))).isEmpty
            then 0 else 1) := by
      unfold Verify.main
      dsimp only
      rw [if_neg hblank]
    refine ⟨⟨fun h2 => ?_, fun hb => absurd hb hblank⟩, fun _ => ⟨?_, ?_, ?_⟩⟩
    · rw [hm] at h2
      split at h2
      · exact absurd h2 (by decide)
      · split at h2
        · exact absurd h2 (by decide)
        · exact absurd h2 (by decide)
    · rw [hm]
      by_cases hge : (Verify.changed_gitlinks
          (W.diffRaw (pyStrip (W.envBase.getD "")) (pyStrip (W.envHead.getD "")))).isEmpty = true
      · rw [if_pos hge]
        constructor
        · intro h
          exact absurd h (by decide)
        · rintro ⟨gl, hgl, _⟩
          rw [List.isEmpty_iff] at hge
          rw [hge] at hgl
          cases hgl
      · rw [if_neg hge]
        by_cases hfe : ((Verify.changed_gitlinks
              (W.diffRaw (pyStrip (W.envBase.getD "")) (pyStrip (W.envHead.getD "")))).filterMap
            (Verify.glFailure
              (Verify.changed_paths
                (W.diffNames (pyStrip (W.envBase.getD "")) (pyStrip (W.envHead.getD "")))))).isEmpty = true
        · rw [if_pos hfe]
          constructor
          · intro h
            exact absurd h (by decide)
          · rintro ⟨gl, hgl, hV⟩
            rw [List.isEmpty_iff, List.filterMap_eq_nil_iff] at hfe
            have hn := hfe gl hgl
            have hs := (glFailure_isSome_iff _ gl).mpr hV
            rw [hn] at hs
            exact absurd hs (by decide)
        · rw [if_neg hfe]
          constructor
          · intro _
            rw [List.isEmpty_iff] at hfe
            rcases hne : (Verify.changed_gitlinks
                  (W.diffRaw (pyStrip (W.envBase.getD "")) (pyStrip (W.envHead.getD "")))).filterMap
                (Verify.glFailure
                  (Verify.changed_paths
                    (W.diffNames (pyStrip (W.envBase.getD "")) (pyStrip (W.envHead.getD ""))))) with
              _ | ⟨msg, rest⟩
            · exact absurd hne hfe
            · have : msg ∈ (Verify.changed_gitlinks
                    (W.diffRaw (pyStrip (W.envBase.getD "")) (pyStrip (W.envHead.getD "")))).filterMap
                  (Verify.glFailure
                    (Verify.changed_paths
                      (W.diffNames (pyStrip (W.envBase.getD "")) (pyStrip (W.envHead.getD ""))))) := by
                rw [hne]
                exact List.mem_cons_self _ _
              rw [List.mem_filterMap] at this
              obtain ⟨gl, hgl, hsome⟩ := this
              refine ⟨gl, hgl, (glFailure_isSome_iff _ gl).mp ?_⟩
              rw [hsome]
              rfl
          · intro _
            rfl
    · intro hne
      rw [hm]
      by_cases hge : (Verify.changed_gitlinks
          (W.diffRaw (pyStrip (W.envBase.getD "")) (pyStrip (W.envHead.getD "")))).isEmpty = true
      · rw [if_pos hge]
      · rw [if_neg hge]
        have hfe : ((Verify.changed_gitlinks
              (W.diffRaw (pyStrip (W.envBase.getD "")) (pyStrip (W.envHead.getD "")))).filterMap
            (Verify.glFailure
              (Verify.changed_paths
                (W.diffNames (pyStrip (W.envBase.getD "")) (pyStrip (W.envHead.getD "")))))).isEmpty = true := by
          rw [List.isEmpty_iff, List.filterMap_eq_nil_iff]
          intro gl hgl
          rcases hcase : Verify.glFailure
              (Verify.changed_paths
                (W.diffNames (pyStrip (W.envBase.getD "")) (pyStrip (W.envHead.getD "")))) gl with
            _ | msg
          · rfl
          · exfalso
            apply hne
            refine ⟨gl, hgl, (glFailure_isSome_iff _ gl).mp ?_⟩
            rw [hcase]
            rfl
        rw [if_pos hfe]
    · unfold Verify.failuresOf
      exact length_filterMap_eq_countP _ _

theorem verifier_exit_code_spec_witness : Verify.main VW1 = 1 := by
  have h := (verifier_exit_code_spec VW1).2 (by decide)
  exact h.1.mpr ⟨⟨"benchmarks/TDD"⟩, by decide, Or.inr ⟨"TDD", by decide, by decide⟩⟩

/-- C10: a gitlink change whose path is neither exactly _metrics nor
prefixed by benchmarks/ never contributes a violation: its per-change
check yields no failure for every changed-paths set, and a verifier run
whose gitlink changes are all of this kind never exits 1, regardless of
which file paths changed in the range. -/
theorem irrelevant_gitlink_changes_always_pass :
    (∀ (changed : List String) (gl : Verify.GitlinkChange),
       gl.path ≠ "_metrics" → pyStartsWith gl.path "benchmarks/" = false →
       Verify.glFailure changed gl = none) ∧
    (∀ W : Verify.VWorld,
       (∀ gl ∈ Verify.changed_gitlinks
           (W.diffRaw (pyStrip (W.envBase.getD "")) (pyStrip (W.envHead.getD ""))),
         gl.path ≠ "_metrics" ∧ pyStartsWith gl.path "benchmarks/" = false) →
       Verify.main W ≠ 1) := by
  have h1 : ∀ (changed : List String) (gl : Verify.GitlinkChange),
      gl.path ≠ "_metrics" → pyStartsWith gl.path "benchmarks/" = false →
      Verify.glFailure changed gl = none := by
    intro changed gl hm hbs
    unfold Verify.glFailure
    rw [if_neg hm, if_neg (by simp [hbs])]
  refine ⟨h1, ?_⟩
  intro W hall
  unfold Verify.main
  dsimp only
  split
  · decide
  · split
    · decide
    · have hfe : ((Verify.changed_gitlinks
            (W.diffRaw (pyStrip (W.envBase.getD "")) (pyStrip (W.envHead.getD "")))).filterMap
          (Verify.glFailure
            (Verify.changed_paths
              (W.diffNames (pyStrip (W.envBase.getD "")) (pyStrip (W.envHead.getD "")))))) = [] :=
        List.filterMap_eq_nil_iff.mpr (fun gl hgl => h1 _ gl (hall gl hgl).1 (hall gl hgl).2)
      rw [hfe]
      decide

theorem irrelevant_gitlink_changes_always_pass_witness :
    Verify.glFailure ["README.md"] ⟨"thirdparty/lib"⟩ = none ∧ Verify.main VW2 ≠ 1 :=
  ⟨irrelevant_gitlink_changes_always_pass.1 ["README.md"] ⟨"thirdparty/lib"⟩
      (by decide) (by decide),
   irrelevant_gitlink_changes_always_pass.2 VW2 (by decide)⟩

/-- C2 (amended): with neither --all nor any --bench name, when both a
base and a head revision resolve from flags or environment, the
orchestrator selects all discovered benchmarks whenever _metrics is among
the changed gitlink paths and otherwise selects exactly the benchmarks
whose path (prefixed benchmarks/) is among the changed gitlink paths; when
base or head is missing it selects nothing and performs no benchmark work,
and it exits 0 provided --check is not set (with --check, the final git
diff --exit-code run decides the exit status, and it exits 0 when that
check passes). -/
theorem main_change_driven_selection (W : Gen.World) (args : Gen.Args)
    (hall : args.all = false) (hbench : args.bench = []) :
    ((Gen.truthy (Gen.pyOrStr args.base W.envBase) &&
        Gen.truthy (Gen.pyOrStr args.head W.envHead)) = true →
      (((Gen.changed_gitlinks (W.gitDiffRaw ((Gen.pyOrStr args.base W.envBase).getD "")
            ((Gen.pyOrStr args.head W.envHead).getD ""))).contains "_metrics" = true →
          Gen.selectBenchmarks W args = Gen.list_rule_benchmarks W) ∧
       ((Gen.changed_gitlinks (W.gitDiffRaw ((Gen.pyOrStr args.base W.envBase).getD "")
            ((Gen.pyOrStr args.head W.envHead).getD ""))).contains "_metrics" = false →
          ∀ p, p ∈ Gen.selectBenchmarks W args ↔
            ∃ q ∈ Gen.changed_gitlinks (W.gitDiffRaw ((Gen.pyOrStr args.base W.envBase).getD "")
                ((Gen.pyOrStr args.head W.envHead).getD "")),
              pyStartsWith q "benchmarks/" = true ∧ p = Gen.pjoin Gen.ROOT q))) ∧
    ((Gen.truthy (Gen.pyOrStr args.base W.envBase) &&
        Gen.truthy (Gen.pyOrStr args.head W.envHead)) = false →
      (Gen.selectBenchmarks W args = [] ∧
       (args.check = false → Gen.main W args = .ok (0, [])) ∧
       (args.check = true →
         (W.exec ["git", "diff", "--exit-code"] none).returncode = 0 →
         Gen.main W args = .ok (0, [Gen.Event.runProc ["git", "diff", "--exit-code"] none])))) := by
  have hsel : Gen.selectBenchmarks W args =
      (if (Gen.truthy (Gen.pyOrStr args.base W.envBase) &&
            Gen.truthy (Gen.pyOrStr args.head W.envHead)) = true then
        (if (Gen.changed_gitlinks (W.gitDiffRaw ((Gen.pyOrStr args.base W.envBase).getD "")
              ((Gen.pyOrStr args.head W.envHead).getD ""))).contains "_metrics" = true then
          Gen.list_rule_benchmarks W
        else
          (sortStrings (dedup (Gen.changed_gitlinks
              (W.gitDiffRaw ((Gen.pyOrStr args.base W.envBase).getD "")
                ((Gen.pyOrStr args.head W.envHead).getD ""))))).filterMap (fun p =>
            if pyStartsWith p "benchmarks/" then some (Gen.pjoin Gen.ROOT p) else none))
      else []) := by
    unfold Gen.selectBenchmarks
    rw [if_neg (by simp [hall]), if_neg (by simp [hbench])]
  constructor
  · intro htr
    constructor
    · intro hmet
      rw [hsel, if_pos htr, if_pos hmet]
    · intro hmet
      intro p
      rw [hsel, if_pos htr, if_neg (by rw [hmet]; decide)]
      rw [List.mem_filterMap]
      constructor
      · rintro ⟨q, hq, hf⟩
        rw [mem_sortStrings, mem_dedup] at hq
        by_cases hs : pyStartsWith q "benchmarks/" = true
        · rw [if_pos hs] at hf
          exact ⟨q, hq, hs, (Option.some.inj hf).symm⟩
        · rw [if_neg hs] at hf
          cases hf
      · rintro ⟨q, hq, hs, rfl⟩
        refine ⟨q, ?_, by rw [if_pos hs]⟩
        rw [mem_sortStrings, mem_dedup]
        exact hq
  · intro hntr
    have hempty : Gen.selectBenchmarks W args = [] := by
      rw [hsel, if_neg (by simp [hntr])]
    refine ⟨hempty, ?_, ?_⟩
    · intro hcheck
      unfold Gen.main
      rw [hempty]
      simp only [List.isEmpty_nil, hcheck]
      rfl
    · intro hcheck hexec
      unfold Gen.main
      rw [hempty]
      simp only [List.isEmpty_nil, hcheck]
      unfold Gen.runCmd
      simp only [hexec]
      rfl

/-- C2 is false as stated: with neither --all nor any --bench name and no
resolvable base or head revision, the orchestrator performs no benchmark
work, but it does not always exit 0 — with --check set and a dirty
working tree (git diff --exit-code exiting 1) the RuntimeError raised by
the check propagates and the process exits 1. -/
theorem main_missing_revisions_counterexample :
    args2.all = false ∧ args2.bench = [] ∧
    Gen.pyOrStr args2.base W2.envBase = none ∧
    Gen.pyOrStr args2.head W2.envHead = none ∧
    Gen.selectBenchmarks W2 args2 = [] ∧
    Gen.mainExit W2 args2 = 1 := by
  refine ⟨rfl, rfl, rfl, rfl, ?_, ?_⟩ <;> decide

theorem main_change_driven_selection_witness :
    Gen.pjoin Gen.ROOT "benchmarks/TDD" ∈ Gen.selectBenchmarks W3 args3 ∧
    Gen.selectBenchmarks W2 args2 = [] := by
  constructor
  · exact (((main_change_driven_selection W3 args3 rfl rfl).1 (by decide)).2 (by decide)
      (Gen.pjoin Gen.ROOT "benchmarks/TDD")).mpr ⟨"benchmarks/TDD", by decide, by decide, rfl⟩
  · exact ((main_change_driven_selection W2 args2 rfl rfl).2 (by decide)).1

theorem runAllIters_spec (W : Gen.World) (storage runner wd : String) :
    ∀ (iters : List Nat) (acc : List Gen.Event),
      (∀ c w, Gen.Event.runProc c w ∈ acc → (W.exec c w).returncode = 0) →
      (∀ p s, Gen.Event.write p s ∉ acc) →
      (∀ tr, Gen.runAllIters W storage runner wd iters acc = .ok tr →
         (∀ c w, Gen.Event.runProc c w ∈ tr → (W.exec c w).returncode = 0) ∧
         (∀ p s, Gen.Event.write p s ∉ tr)) ∧
      (∀ f, Gen.runAllIters W storage runner wd iters acc = .error f →
         ∃ cmd cwd t, f.trace = t ++ [Gen.Event.runProc cmd cwd] ∧
           (W.exec cmd cwd).returncode ≠ 0 ∧
           f.msg = Gen.cmdFailMsg cmd (W.exec cmd cwd) ∧
           (∀ c w, Gen.Event.runProc c w ∈ t → (W.exec c w).returncode = 0) ∧
           (∀ p s, Gen.Event.write p s ∉ f.trace)) := by
  intro iters
  induction iters with
  | nil =>
    intro acc hok hnw
    constructor
    · intro tr htr
      unfold Gen.runAllIters at htr
      cases htr
      exact ⟨hok, hnw⟩
    · intro f hf
      unfold Gen.runAllIters at hf
      exact Except.noConfusion hf
  | cons i rest ih =>
    intro acc hok hnw
    have hstep0 : Gen.runAllIters W storage runner wd (i :: rest) acc =
        match Gen.runCmd W ["bash", runner, Gen.pjoin storage ("run_" ++ toString i)] (some wd) with
        | .error f =>
            .error ⟨f.msg,
              (acc ++ [.mkdir (Gen.pjoin storage ("run_" ++ toString i))]) ++ f.trace⟩
        | .ok tr =>
            Gen.runAllIters W storage runner wd rest
              ((acc ++ [.mkdir (Gen.pjoin storage ("run_" ++ toString i))]) ++ tr) := by
      rfl
    by_cases hrc :
        (W.exec ["bash", runner, Gen.pjoin storage ("run_" ++ toString i)] (some wd)).returncode = 0
    · have hcmd : Gen.runCmd W ["bash", runner, Gen.pjoin storage ("run_" ++ toString i)]
          (some wd) =
          .ok [.runProc ["bash", runner, Gen.pjoin storage ("run_" ++ toString i)] (some wd)] := by
        simp only [Gen.runCmd]
        rw [if_neg (fun h => h hrc)]
      rw [hstep0, hcmd]
      apply ih
      · intro c w hm
        rcases List.mem_append.mp hm with hm1 | hm1
        · rcases List.mem_append.mp hm1 with hm2 | hm2
          · exact hok c w hm2
          · simp at hm2
        · simp at hm1
          rw [hm1.1, hm1.2]
          exact hrc
      · intro p s hm
        rcases List.mem_append.mp hm with hm1 | hm1
        · rcases List.mem_append.mp hm1 with hm2 | hm2
          · exact hnw p s hm2
          · simp at hm2
        · simp at hm1
    · have hcmd : Gen.runCmd W ["bash", runner, Gen.pjoin storage ("run_" ++ toString i)]
          (some wd) =
          .error ⟨Gen.cmdFailMsg ["bash", runner, Gen.pjoin storage ("run_" ++ toString i)]
              (W.exec ["bash", runner, Gen.pjoin storage ("run_" ++ toString i)] (some wd)),
            [.runProc ["bash", runner, Gen.pjoin storage ("run_" ++ toString i)] (some wd)]⟩ := by
        simp only [Gen.runCmd]
        rw [if_pos hrc]
      rw [hstep0, hcmd]
      constructor
      · intro tr htr
        exact Except.noConfusion htr
      · intro f hf
        injection hf with hf2
        subst hf2
        refine ⟨["bash", runner, Gen.pjoin storage ("run_" ++ toString i)], some wd,
          acc ++ [.mkdir (Gen.pjoin storage ("run_" ++ toString i))], rfl, hrc, rfl, ?_, ?_⟩
        · intro c w hm
          rcases List.mem_append.mp hm with hm1 | hm1
          · exact hok c w hm1
          · simp at hm1
        · intro p s hm
          rcases List.mem_append.mp hm with hm1 | hm1
          · rcases List.mem_append.mp hm1 with hm2 | hm2
            · exact hnw p s hm2
            · simp at hm2
          · simp at hm1

theorem execute_runs_spec (W : Gen.World) (rule lang runner : String) (n : Nat) (wd : String) :
    (∀ st tr, Gen.execute_runs W rule lang runner n wd = .ok (st, tr) →
       st = Gen.runsStorage rule lang ∧
       (∀ c w, Gen.Event.runProc c w ∈ tr → (W.exec c w).returncode = 0) ∧
       (∀ p s, Gen.Event.write p s ∉ tr)) ∧
    (∀ f, Gen.execute_runs W rule lang runner n wd = .error f →
       ∃ cmd cwd t, f.trace = t ++ [Gen.Event.runProc cmd cwd] ∧
         (W.exec cmd cwd).returncode ≠ 0 ∧
         f.msg = Gen.cmdFailMsg cmd (W.exec cmd cwd) ∧
         (∀ c w, Gen.Event.runProc c w ∈ t → (W.exec c w).returncode = 0) ∧
         (∀ p s, Gen.Event.write p s ∉ f.trace)) := by
  have hpre1 : ∀ c w, Gen.Event.runProc c w ∈
      ((if W.pathExists (Gen.runsStorage rule lang) then
          [Gen.Event.rmtree (Gen.runsStorage rule lang)] else []) ++
        [Gen.Event.mkdir (Gen.runsStorage rule lang)]) → (W.exec c w).returncode = 0 := by
    intro c w hm
    rcases List.mem_append.mp hm with h | h
    · split at h <;> simp at h
    · simp at h
  have hpre2 : ∀ p s, Gen.Event.write p s ∉
      ((if W.pathExists (Gen.runsStorage rule lang) then
          [Gen.Event.rmtree (Gen.runsStorage rule lang)] else []) ++
        [Gen.Event.mkdir (Gen.runsStorage rule lang)]) := by
    intro p s hm
    rcases List.mem_append.mp hm with h | h
    · split at h <;> simp at h
    · simp at h
  have hspec := runAllIters_spec W (Gen.runsStorage rule lang) runner wd (List.range' 1 n)
    ((if W.pathExists (Gen.runsStorage rule lang) then
        [Gen.Event.rmtree (Gen.runsStorage rule lang)] else []) ++
      [Gen.Event.mkdir (Gen.runsStorage rule lang)]) hpre1 hpre2
  rcases hra : Gen.runAllIters W (Gen.runsStorage rule lang) runner wd (List.range' 1 n)
      ((if W.pathExists (Gen.runsStorage rule lang) then
          [Gen.Event.rmtree (Gen.runsStorage rule lang)] else []) ++
        [Gen.Event.mkdir (Gen.runsStorage rule lang)]) with f2 | tr2
  · constructor
    · intro st tr h
      unfold Gen.execute_runs at h
      dsimp only at h
      rw [hra] at h
      exact Except.noConfusion h
    · intro f h
      unfold Gen.execute_runs at h
      dsimp only at h
      rw [hra] at h
      injection h with h2
      subst h2
      exact hspec.2 f2 hra
  · constructor
    · intro st tr h
      unfold Gen.execute_runs at h
      dsimp only at h
      rw [hra] at h
      injection h with h2
      injection h2 with h3 h4
      subst h3
      subst h4
      exact ⟨rfl, (hspec.1 tr2 hra).1, (hspec.1 tr2 hra).2⟩
    · intro f h
      unfold Gen.execute_runs at h
      dsimp only at h
      rw [hra] at h
      exact Except.noConfusion h

theorem aggregate_results_spec (W : Gen.World) (agg input out wd : String) :
    (∀ tr, Gen.aggregate_results W agg input out wd = .ok tr →
       tr = [Gen.Event.runProc ["python3", agg, "--input-dir", input, "--output", out]
           (some wd)] ∧
       (W.exec ["python3", agg, "--input-dir", input, "--output", out]
           (some wd)).returncode = 0) ∧
    (∀ f, Gen.aggregate_results W agg input out wd = .error f →
       f.trace = [Gen.Event.runProc ["python3", agg, "--input-dir", input, "--output", out]
           (some wd)] ∧
       (W.exec ["python3", agg, "--input-dir", input, "--output", out]
           (some wd)).returncode ≠ 0 ∧
       f.msg = Gen.cmdFailMsg ["python3", agg, "--input-dir", input, "--output", out]
           (W.exec ["python3", agg, "--input-dir", input, "--output", out] (some wd))) := by
  unfold Gen.aggregate_results Gen.runCmd
  by_cases hrc : (W.exec ["python3", agg, "--input-dir", input, "--output", out]
      (some wd)).returncode = 0
  · rw [if_neg (fun h => h hrc)]
    constructor
    · intro tr h
      injection h with h2
      subst h2
      exact ⟨rfl, hrc⟩
    · intro f h
      exact Except.noConfusion h
  · rw [if_pos hrc]
    constructor
    · intro tr h
      exact Except.noConfusion h
    · intro f h
      injection h with h2
      subst h2
      exact ⟨rfl, hrc, rfl⟩

theorem processToolchains_spec (W : Gen.World) (bench rule : String) (n : Nat) :
    ∀ (tcs : List Gen.Toolchain) (acc : List Gen.Event),
      (∀ c w, Gen.Event.runProc c w ∈ acc → (W.exec c w).returncode = 0) →
      (∀ p s, Gen.Event.write p s ∉ acc) →
      (∀ tr, Gen.processToolchains W bench rule n tcs acc = .ok tr →
         (∀ c w, Gen.Event.runProc c w ∈ tr → (W.exec c w).returncode = 0) ∧
         (∀ p s, Gen.Event.write p s ∉ tr)) ∧
      (∀ f, Gen.processToolchains W bench rule n tcs acc = .error f →
         ∃ cmd cwd t, f.trace = t ++ [Gen.Event.runProc cmd cwd] ∧
           (W.exec cmd cwd).returncode ≠ 0 ∧
           f.msg = Gen.cmdFailMsg cmd (W.exec cmd cwd) ∧
           (∀ c w, Gen.Event.runProc c w ∈ t → (W.exec c w).returncode = 0) ∧
           (∀ p s, Gen.Event.write p s ∉ f.trace)) := by
  intro tcs
  induction tcs with
  | nil =>
    intro acc hok hnw
    constructor
    · intro tr htr
      unfold Gen.processToolchains at htr
      cases htr
      exact ⟨hok, hnw⟩
    · intro f hf
      unfold Gen.processToolchains at hf
      exact Except.noConfusion hf
  | cons tc rest ih =>
    intro acc hok hnw
    have hstep0 : Gen.processToolchains W bench rule n (tc :: rest) acc =
        match Gen.execute_runs W rule tc.language tc.runner n (Gen.pjoin bench tc.language) with
        | .error f => .error ⟨f.msg, acc ++ f.trace⟩
        | .ok (runs_dir, tr) =>
            match Gen.aggregate_results W tc.aggregator runs_dir
                (Gen.ensure_results_path rule tc.language).1 (Gen.pjoin bench tc.language) with
            | .error f =>
                .error ⟨f.msg,
                  ((acc ++ tr) ++ (Gen.ensure_results_path rule tc.language).2) ++ f.trace⟩
            | .ok tr2 =>
                Gen.processToolchains W bench rule n rest
                  (((acc ++ tr) ++ (Gen.ensure_results_path rule tc.language).2) ++ tr2) := by
      rfl
    rcases hex : Gen.execute_runs W rule tc.language tc.runner n (Gen.pjoin bench tc.language)
      with fx | ⟨runs_dir, trx⟩
    · rw [hstep0, hex]
      obtain ⟨cmd, cwd, t, htr, hne, hmsg, htok, htnw⟩ :=
        (execute_runs_spec W rule tc.language tc.runner n (Gen.pjoin bench tc.language)).2 fx hex
      constructor
      · intro tr h
        exact Except.noConfusion h
      · intro f h
        injection h with h2
        subst h2
        refine ⟨cmd, cwd, acc ++ t, ?_, hne, hmsg, ?_, ?_⟩
        · rw [htr, List.append_assoc]
        · intro c w hm
          rcases List.mem_append.mp hm with h1 | h1
          · exact hok c w h1
          · exact htok c w h1
        · intro p s hm
          rcases List.mem_append.mp hm with h1 | h1
          · exact hnw p s h1
          · exact htnw p s h1
    · have hexok := (execute_runs_spec W rule tc.language tc.runner n
        (Gen.pjoin bench tc.language)).1 runs_dir trx hex
      rcases hag : Gen.aggregate_results W tc.aggregator runs_dir
          (Gen.ensure_results_path rule tc.language).1 (Gen.pjoin bench tc.language)
        with fa | tra
      all_goals
        rw [hstep0, hex]
        dsimp only
        rw [hag]
        dsimp only
      · obtain ⟨hatr, hane, hamsg⟩ := (aggregate_results_spec W tc.aggregator runs_dir
          (Gen.ensure_results_path rule tc.language).1 (Gen.pjoin bench tc.language)).2 fa hag
        constructor
        · intro tr h
          exact Except.noConfusion h
        · intro f h
          injection h with h2
          subst h2
          refine ⟨["python3", tc.aggregator, "--input-dir", runs_dir, "--output",
              (Gen.ensure_results_path rule tc.language).1], some (Gen.pjoin bench tc.language),
            (acc ++ trx) ++ (Gen.ensure_results_path rule tc.language).2, ?_, hane, hamsg, ?_, ?_⟩
          · rw [hatr]
          · intro c w hm
            rcases List.mem_append.mp hm with h1 | h1
            · rcases List.mem_append.mp h1 with h2 | h2
              · exact hok c w h2
              · exact hexok.2.1 c w h2
            · simp [Gen.ensure_results_path] at h1
          · intro p s hm
            rw [hatr] at hm
            rcases List.mem_append.mp hm with h1 | h1
            · rcases List.mem_append.mp h1 with h2 | h2
              · rcases List.mem_append.mp h2 with h3 | h3
                · exact hnw p s h3
                · exact hexok.2.2 p s h3
              · simp [Gen.ensure_results_path] at h2
            · simp at h1
      · obtain ⟨hatr, hac0⟩ := (aggregate_results_spec W tc.aggregator runs_dir
          (Gen.ensure_results_path rule tc.language).1 (Gen.pjoin bench tc.language)).1 tra hag
        apply ih
        · intro c w hm
          rcases List.mem_append.mp hm with h1 | h1
          · rcases List.mem_append.mp h1 with h2 | h2
            · rcases List.mem_append.mp h2 with h3 | h3
              · exact hok c w h3
              · exact hexok.2.1 c w h3
            · simp [Gen.ensure_results_path] at h2
          · rw [hatr] at h1
            simp at h1
            rw [h1.1, h1.2]
            exact hac0
        · intro p s hm
          rcases List.mem_append.mp hm with h1 | h1
          · rcases List.mem_append.mp h1 with h2 | h2
            · rcases List.mem_append.mp h2 with h3 | h3
              · exact hnw p s h3
              · exact hexok.2.2 p s h3
            · simp [Gen.ensure_results_path] at h2
          · rw [hatr] at h1
            simp at h1

theorem processBenchList_spec (W : Gen.World) (n : Nat) :
    ∀ (paths : List String) (acc : List Gen.Event),
      (∀ c w, Gen.Event.runProc c w ∈ acc → (W.exec c w).returncode = 0) →
      (∀ p s, Gen.Event.write p s ∉ acc) →
      (∀ tr, Gen.processBenchList W n paths acc = .ok tr →
         (∀ c w, Gen.Event.runProc c w ∈ tr → (W.exec c w).returncode = 0) ∧
         (∀ p s, Gen.Event.write p s ∉ tr)) ∧
      (∀ f, Gen.processBenchList W n paths acc = .error f →
         ∃ cmd cwd t, f.trace = t ++ [Gen.Event.runProc cmd cwd] ∧
           (W.exec cmd cwd).returncode ≠ 0 ∧
           f.msg = Gen.cmdFailMsg cmd (W.exec cmd cwd) ∧
           (∀ c w, Gen.Event.runProc c w ∈ t → (W.exec c w).returncode = 0) ∧
           (∀ p s, Gen.Event.write p s ∉ f.trace)) := by
  intro paths
  induction paths with
  | nil =>
    intro acc hok hnw
    constructor
    · intro tr htr
      unfold Gen.processBenchList at htr
      cases htr
      exact ⟨hok, hnw⟩
    · intro f hf
      unfold Gen.processBenchList at hf
      exact Except.noConfusion hf
  | cons bench rest ih =>
    intro acc hok hnw
    have hstep0 : Gen.processBenchList W n (bench :: rest) acc =
        match Gen.processToolchains W bench (Gen.baseName bench) n
            (Gen.find_toolchains W bench) acc with
        | .error f => .error f
        | .ok acc2 => Gen.processBenchList W n rest acc2 := by
      rfl
    have htc := processToolchains_spec W bench (Gen.baseName bench) n
      (Gen.find_toolchains W bench) acc hok hnw
    rcases hpt : Gen.processToolchains W bench (Gen.baseName bench) n
        (Gen.find_toolchains W bench) acc with fp | acc2
    · rw [hstep0, hpt]
      constructor
      · intro tr h
        exact Except.noConfusion h
      · intro f h
        injection h with h2
        subst h2
        exact htc.2 fp hpt
    · rw [hstep0, hpt]
      dsimp only
      exact ih acc2 (htc.1 acc2 hpt).1 (htc.1 acc2 hpt).2

/-- C4: whenever the orchestration pass raises, the trace ends exactly at
the failing subprocess invocation — nothing at all is executed after it
(in particular, neither the aggregator for the failing toolchain nor any
remaining toolchain or benchmark is invoked, and no results file is ever
written by the pass) — every earlier invocation had exited 0, and the
error message is cmdFailMsg of the failing command: the command line, its
exit code, and its stripped stderr (or stripped stdout when stderr is
empty); conversely a pass that completes had every invocation exit 0, so
any runner exiting nonzero aborts the pass at that invocation with no
retry and no partial continuation, and the results file for its toolchain
is neither written nor updated. -/
theorem runner_failure_aborts_pass (W : Gen.World) (paths : List String) (n : Nat) :
    (∀ f, Gen.process_benchmarks W paths n = .error f →
       ∃ cmd cwd t, f.trace = t ++ [Gen.Event.runProc cmd cwd] ∧
         (W.exec cmd cwd).returncode ≠ 0 ∧
         f.msg = Gen.cmdFailMsg cmd (W.exec cmd cwd) ∧
         (∀ c w, Gen.Event.runProc c w ∈ t → (W.exec c w).returncode = 0) ∧
         (∀ p s, Gen.Event.write p s ∉ f.trace)) ∧
    (∀ tr, Gen.process_benchmarks W paths n = .ok tr →
       ∀ c w, Gen.Event.runProc c w ∈ tr → (W.exec c w).returncode = 0) := by
  have h := processBenchList_spec W n paths [] (by simp) (by simp)
  unfold Gen.process_benchmarks
  exact ⟨fun f hf => h.2 f hf, fun tr htr => (h.1 tr htr).1⟩

theorem runner_failure_aborts_pass_witness :
    ∃ cmd cwd t, F4.trace = t ++ [Gen.Event.runProc cmd cwd] ∧
      (W4.exec cmd cwd).returncode ≠ 0 ∧
      F4.msg = Gen.cmdFailMsg cmd (W4.exec cmd cwd) ∧
      (∀ c w, Gen.Event.runProc c w ∈ t → (W4.exec c w).returncode = 0) ∧
      (∀ p s, Gen.Event.write p s ∉ F4.trace) :=
  (runner_failure_aborts_pass W4 ["/repo/benchmarks/TDD"] 2).1 F4 (by rfl)

theorem runAllIters_events_shape (W : Gen.World) (storage runner wd : String) :
    ∀ (iters : List Nat) (acc : List Gen.Event),
      (∀ c w, Gen.Event.runProc c w ∈ acc → ∃ d, c = ["bash", runner, d] ∧ w = some wd) →
      (∀ tr, Gen.runAllIters W storage runner wd iters acc = .ok tr →
         ∀ c w, Gen.Event.runProc c w ∈ tr → ∃ d, c = ["bash", runner, d] ∧ w = some wd) ∧
      (∀ f, Gen.runAllIters W storage runner wd iters acc = .error f →
         ∀ c w, Gen.Event.runProc c w ∈ f.trace →
           ∃ d, c = ["bash", runner, d] ∧ w = some wd) := by
  intro iters
  induction iters with
  | nil =>
    intro acc hsh
    constructor
    · intro tr htr
      unfold Gen.runAllIters at htr
      cases htr
      exact hsh
    · intro f hf
      unfold Gen.runAllIters at hf
      exact Except.noConfusion hf
  | cons i rest ih =>
    intro acc hsh
    have hstep0 : Gen.runAllIters W storage runner wd (i :: rest) acc =
        match Gen.runCmd W ["bash", runner, Gen.pjoin storage ("run_" ++ toString i)] (some wd) with
        | .error f =>
            .error ⟨f.msg,
              (acc ++ [.mkdir (Gen.pjoin storage ("run_" ++ toString i))]) ++ f.trace⟩
        | .ok tr =>
            Gen.runAllIters W storage runner wd rest
              ((acc ++ [.mkdir (Gen.pjoin storage ("run_" ++ toString i))]) ++ tr) := by
      rfl
    have hext : ∀ c w, Gen.Event.runProc c w ∈
        ((acc ++ [Gen.Event.mkdir (Gen.pjoin storage ("run_" ++ toString i))]) ++
          [Gen.Event.runProc ["bash", runner, Gen.pjoin storage ("run_" ++ toString i)]
            (some wd)]) →
        ∃ d, c = ["bash", runner, d] ∧ w = some wd := by
      intro c w hm
      rcases List.mem_append.mp hm with h1 | h1
      · rcases List.mem_append.mp h1 with h2 | h2
        · exact hsh c w h2
        · simp at h2
      · simp at h1
        exact ⟨Gen.pjoin storage ("run_" ++ toString i), h1.1, h1.2⟩
    by_cases hrc :
        (W.exec ["bash", runner, Gen.pjoin storage ("run_" ++ toString i)] (some wd)).returncode = 0
    · have hcmd : Gen.runCmd W ["bash", runner, Gen.pjoin storage ("run_" ++ toString i)]
          (some wd) =
          .ok [.runProc ["bash", runner, Gen.pjoin storage ("run_" ++ toString i)] (some wd)] := by
        simp only [Gen.runCmd]
        rw [if_neg (fun h => h hrc)]
      rw [hstep0, hcmd]
      exact ih _ hext
    · have hcmd : Gen.runCmd W ["bash", runner, Gen.pjoin storage ("run_" ++ toString i)]
          (some wd) =
          .error ⟨Gen.cmdFailMsg ["bash", runner, Gen.pjoin storage ("run_" ++ toString i)]
              (W.exec ["bash", runner, Gen.pjoin storage ("run_" ++ toString i)] (some wd)),
            [.runProc ["bash", runner, Gen.pjoin storage ("run_" ++ toString i)] (some wd)]⟩ := by
        simp only [Gen.runCmd]
        rw [if_pos hrc]
      rw [hstep0, hcmd]
      constructor
      · intro tr htr
        exact Except.noConfusion htr
      · intro f hf
        injection hf with hf2
        subst hf2
        exact hext

/-- C9: the run executor invokes the runner only through the bash
interpreter: every subprocess event in an execute_runs trace — whether the
pass succeeds or aborts — has command ["bash", runner, output-directory]
and the toolchain directory as its working directory, for every discovered
toolchain, including one whose runner resolved to the suffix-less run_all
fallback; the runner file is never executed directly as its own program. -/
theorem runner_invoked_through_bash (W : Gen.World) (bench : String) (tc : Gen.Toolchain)
    (rule : String) (n : Nat) (wd : String)
    (htc : tc ∈ Gen.find_toolchains W bench) :
    (∀ st tr, Gen.execute_runs W rule tc.language tc.runner n wd = .ok (st, tr) →
       ∀ c w, Gen.Event.runProc c w ∈ tr → ∃ d, c = ["bash", tc.runner, d] ∧ w = some wd) ∧
    (∀ f, Gen.execute_runs W rule tc.language tc.runner n wd = .error f →
       ∀ c w, Gen.Event.runProc c w ∈ f.trace →
         ∃ d, c = ["bash", tc.runner, d] ∧ w = some wd) := by
  have hpre : ∀ c w, Gen.Event.runProc c w ∈
      ((if W.pathExists (Gen.runsStorage rule tc.language) then
          [Gen.Event.rmtree (Gen.runsStorage rule tc.language)] else []) ++
        [Gen.Event.mkdir (Gen.runsStorage rule tc.language)]) →
      ∃ d, c = ["bash", tc.runner, d] ∧ w = some wd := by
    intro c w hm
    rcases List.mem_append.mp hm with h | h
    · split at h <;> simp at h
    · simp at h
  have hspec := runAllIters_events_shape W (Gen.runsStorage rule tc.language) tc.runner wd
    (List.range' 1 n)
    ((if W.pathExists (Gen.runsStorage rule tc.language) then
        [Gen.Event.rmtree (Gen.runsStorage rule tc.language)] else []) ++
      [Gen.Event.mkdir (Gen.runsStorage rule tc.language)]) hpre
  rcases hra : Gen.runAllIters W (Gen.runsStorage rule tc.language) tc.runner wd
      (List.range' 1 n)
      ((if W.pathExists (Gen.runsStorage rule tc.language) then
          [Gen.Event.rmtree (Gen.runsStorage rule tc.language)] else []) ++
        [Gen.Event.mkdir (Gen.runsStorage rule tc.language)]) with f2 | tr2
  · constructor
    · intro st tr h
      unfold Gen.execute_runs at h
      dsimp only at h
      rw [hra] at h
      exact Except.noConfusion h
    · intro f h
      unfold Gen.execute_runs at h
      dsimp only at h
      rw [hra] at h
      injection h with h2
      subst h2
      exact hspec.2 f2 hra
  · constructor
    · intro st tr h
      unfold Gen.execute_runs at h
      dsimp only at h
      rw [hra] at h
      injection h with h2
      injection h2 with h3 h4
      subst h4
      exact hspec.1 tr2 hra
    · intro f h
      unfold Gen.execute_runs at h
      dsimp only at h
      rw [hra] at h
      exact Except.noConfusion h

theorem runner_invoked_through_bash_witness :
    ∃ d, ["bash", "/repo/benchmarks/TDD/go/run_all", "/repo/.runs/TDD/go/run_1"] =
        ["bash", "/repo/benchmarks/TDD/go/run_all", d] ∧
      (some "/repo/benchmarks/TDD/go" : Option String) = some "/repo/benchmarks/TDD/go" :=
  (runner_invoked_through_bash W5 "/repo/benchmarks/TDD"
      ⟨"go", "/repo/benchmarks/TDD/go/run_all", "/repo/benchmarks/TDD/go/generate_results.py"⟩
      "TDD" 1 "/repo/benchmarks/TDD/go" (by decide)).1
    (Gen.runsStorage "TDD" "go") TR5 (by rfl)
    ["bash", "/repo/benchmarks/TDD/go/run_all", "/repo/.runs/TDD/go/run_1"]
    (some "/repo/benchmarks/TDD/go") (by decide)

theorem toDigitsCore_eq_digits :
    ∀ (fuel n : Nat) (acc : List Char), n < 10 ^ fuel → 1 ≤ n →
      Nat.toDigitsCore 10 fuel n acc =
        ((Nat.digits 10 n).map Nat.digitChar).reverse ++ acc := by
  intro fuel
  induction fuel with
  | zero =>
    intro n acc h1 h2
    simp at h1
    omega
  | succ fuel ih =>
    intro n acc hlt hpos
    have hstep : Nat.toDigitsCore 10 (fuel + 1) n acc =
        if n / 10 = 0 then Nat.digitChar (n % 10) :: acc
        else Nat.toDigitsCore 10 fuel (n / 10) (Nat.digitChar (n % 10) :: acc) := by
      rfl
    rw [hstep]
    by_cases h10 : n / 10 = 0
    · rw [if_pos h10]
      have hnlt : n < 10 := by omega
      rw [Nat.digits_of_lt 10 n (by omega) hnlt]
      have : n % 10 = n := Nat.mod_eq_of_lt hnlt
      rw [this]
      rfl
    · rw [if_neg h10]
      have hfb : n / 10 < 10 ^ fuel := by
        rw [Nat.div_lt_iff_lt_mul (by norm_num : 0 < 10)]
        calc n < 10 ^ (fuel + 1) := hlt
          _ = 10 ^ fuel * 10 := by rw [pow_succ]
      have hp2 : 1 ≤ n / 10 := by omega
      rw [ih (n / 10) (Nat.digitChar (n % 10) :: acc) hfb hp2]
      rw [Nat.digits_def' (by norm_num : (1 : Nat) < 10) (by omega : 0 < n)]
      simp [List.append_assoc]

theorem digitChar_inj_lt :
    ∀ a < 10, ∀ b < 10, Nat.digitChar a = Nat.digitChar b → a = b := by decide

theorem map_digitChar_inj :
    ∀ (l1 l2 : List Nat), (∀ x ∈ l1, x < 10) → (∀ x ∈ l2, x < 10) →
      l1.map Nat.digitChar = l2.map Nat.digitChar → l1 = l2 := by
  intro l1
  induction l1 with
  | nil =>
    intro l2 _ _ h
    cases l2 with
    | nil => rfl
    | cons y ys => simp at h
  | cons x xs ih =>
    intro l2 h1 h2 h
    cases l2 with
    | nil => simp at h
    | cons y ys =>
      simp only [List.map_cons, List.cons.injEq] at h
      have hx := digitChar_inj_lt x (h1 x (by simp)) y (h2 y (by simp)) h.1
      rw [hx, ih ys (fun z hz => h1 z (by simp [hz])) (fun z hz => h2 z (by simp [hz])) h.2]

theorem toDigits10_zero : Nat.toDigits 10 0 = ['0'] := by decide

theorem toDigits10_eq (n : Nat) (hn : 1 ≤ n) :
    Nat.toDigits 10 n = ((Nat.digits 10 n).map Nat.digitChar).reverse := by
  have hlt : n < 10 ^ (n + 1) :=
    lt_of_lt_of_le (Nat.lt_pow_self (by norm_num) n)
      (Nat.pow_le_pow_right (by norm_num) (by omega))
  have h := toDigitsCore_eq_digits (n + 1) n [] hlt hn
  rw [show Nat.toDigits 10 n = Nat.toDigitsCore 10 (n + 1) n [] from rfl, h, List.append_nil]

theorem natRepr_inj (a b : Nat) (h : Nat.repr a = Nat.repr b) : a = b := by
  have h2 : Nat.toDigits 10 a = Nat.toDigits 10 b := by
    have hd := congrArg String.data h
    simpa [Nat.repr, List.asString] using hd
  rcases Nat.eq_zero_or_pos a with ha | ha <;> rcases Nat.eq_zero_or_pos b with hb | hb
  · omega
  · exfalso
    subst ha
    rw [toDigits10_zero, toDigits10_eq b hb] at h2
    have h3 : (Nat.digits 10 b).map Nat.digitChar = ['0'] := by
      have h4 := congrArg List.reverse h2
      simpa using h4.symm
    rcases hd : Nat.digits 10 b with _ | ⟨c, cs⟩
    · rw [hd] at h3
      simp at h3
    · rw [hd] at h3
      simp only [List.map_cons, List.cons.injEq] at h3
      obtain ⟨hc0, hcs⟩ := h3
      have hclt : c < 10 := Nat.digits_lt_base (by norm_num) (by rw [hd]; simp)
      have hc : c = 0 := digitChar_inj_lt c hclt 0 (by norm_num) (by rw [hc0]; rfl)
      have hob := Nat.ofDigits_digits 10 b
      rw [hd, List.map_eq_nil_iff.mp hcs, hc] at hob
      simp [Nat.ofDigits] at hob
      omega
  · exfalso
    subst hb
    rw [toDigits10_zero, toDigits10_eq a ha] at h2
    have h3 : (Nat.digits 10 a).map Nat.digitChar = ['0'] := by
      have h4 := congrArg List.reverse h2
      simpa using h4
    rcases hd : Nat.digits 10 a with _ | ⟨c, cs⟩
    · rw [hd] at h3
      simp at h3
    · rw [hd] at h3
      simp only [List.map_cons, List.cons.injEq] at h3
      obtain ⟨hc0, hcs⟩ := h3
      have hclt : c < 10 := Nat.digits_lt_base (by norm_num) (by rw [hd]; simp)
      have hc : c = 0 := digitChar_inj_lt c hclt 0 (by norm_num) (by rw [hc0]; rfl)
      have hob := Nat.ofDigits_digits 10 a
      rw [hd, List.map_eq_nil_iff.mp hcs, hc] at hob
      simp [Nat.ofDigits] at hob
      omega
  · rw [toDigits10_eq a ha, toDigits10_eq b hb] at h2
    have h3 := List.reverse_injective h2
    have h4 := map_digitChar_inj _ _ (fun x hx => Nat.digits_lt_base (by norm_num) hx)
      (fun x hx => Nat.digits_lt_base (by norm_num) hx) h3
    have h5 := congrArg (Nat.ofDigits 10) h4
    rw [Nat.ofDigits_digits, Nat.ofDigits_digits] at h5
    exact_mod_cast h5

theorem str_data_inj (a b : String) (h : a.data = b.data) : a = b := by
  cases a
  cases b
  cases h
  rfl

theorem runDir_inj (storage : String) (a b : Nat)
    (h : Gen.pjoin storage ("run_" ++ toString a) = Gen.pjoin storage ("run_" ++ toString b)) :
    a = b := by
  unfold Gen.pjoin at h
  have hd := congrArg String.data h
  simp only [strAppend_data, List.append_assoc] at hd
  have h2 := List.append_cancel_left (List.append_cancel_left (List.append_cancel_left hd))
  exact natRepr_inj a b (str_data_inj _ _ h2)

theorem runAllIters_all_ok (W : Gen.World) (storage runner wd : String)
    (hok : ∀ cmd cwd, (W.exec cmd cwd).returncode = 0) :
    ∀ (iters : List Nat) (acc : List Gen.Event),
      Gen.runAllIters W storage runner wd iters acc =
        .ok (acc ++ iters.flatMap (fun i =>
          [Gen.Event.mkdir (Gen.pjoin storage ("run_" ++ toString i)),
           Gen.Event.runProc ["bash", runner, Gen.pjoin storage ("run_" ++ toString i)]
             (some wd)])) := by
  intro iters
  induction iters with
  | nil =>
    intro acc
    simp [Gen.runAllIters]
  | cons i rest ih =>
    intro acc
    have hstep0 : Gen.runAllIters W storage runner wd (i :: rest) acc =
        match Gen.runCmd W ["bash", runner, Gen.pjoin storage ("run_" ++ toString i)] (some wd) with
        | .error f =>
            .error ⟨f.msg,
              (acc ++ [.mkdir (Gen.pjoin storage ("run_" ++ toString i))]) ++ f.trace⟩
        | .ok tr =>
            Gen.runAllIters W storage runner wd rest
              ((acc ++ [.mkdir (Gen.pjoin storage ("run_" ++ toString i))]) ++ tr) := by
      rfl
    have hcmd : Gen.runCmd W ["bash", runner, Gen.pjoin storage ("run_" ++ toString i)]
        (some wd) =
        .ok [.runProc ["bash", runner, Gen.pjoin storage ("run_" ++ toString i)] (some wd)] := by
      simp only [Gen.runCmd]
      rw [if_neg (fun h => h (hok _ _))]
    rw [hstep0, hcmd]
    dsimp only
    rw [ih]
    simp [List.append_assoc]

/-- C5: for every (rule, language) pair, runner, working directory and run
count N at least 1, when every runner invocation succeeds the run executor
first deletes the scratch area for the pair when one pre-exists and
recreates it, then for each iteration 1..N creates the output directory
run_i and invokes the runner once with exactly that directory as its sole
positional argument (through bash) with the toolchain directory as working
directory, and nothing else; the per-iteration output directories are
exactly N in number and pairwise distinct. -/
theorem execute_runs_trace_spec (W : Gen.World) (rule lang runner : String) (n : Nat)
    (wd : String) (hn : 1 ≤ n)
    (hok : ∀ cmd cwd, (W.exec cmd cwd).returncode = 0) :
    Gen.execute_runs W rule lang runner n wd =
      .ok (Gen.runsStorage rule lang,
        (if W.pathExists (Gen.runsStorage rule lang) then
            [Gen.Event.rmtree (Gen.runsStorage rule lang)] else []) ++
          [Gen.Event.mkdir (Gen.runsStorage rule lang)] ++
          (List.range' 1 n).flatMap (fun i =>
            [Gen.Event.mkdir (Gen.pjoin (Gen.runsStorage rule lang) ("run_" ++ toString i)),
             Gen.Event.runProc ["bash", runner,
                 Gen.pjoin (Gen.runsStorage rule lang) ("run_" ++ toString i)] (some wd)])) ∧
    ((List.range' 1 n).map (fun i =>
        Gen.pjoin (Gen.runsStorage rule lang) ("run_" ++ toString i))).length = n ∧
    ((List.range' 1 n).map (fun i =>
        Gen.pjoin (Gen.runsStorage rule lang) ("run_" ++ toString i))).Nodup := by
  refine ⟨?_, ?_, ?_⟩
  · unfold Gen.execute_runs
    dsimp only
    rw [runAllIters_all_ok W (Gen.runsStorage rule lang) runner wd hok (List.range' 1 n)]
  · rw [List.length_map, List.length_range']
  · refine List.Nodup.map ?_ (List.nodup_range' 1 n)
    intro a b hab
    exact runDir_inj (Gen.runsStorage rule lang) a b hab

theorem execute_runs_trace_spec_witness :
    Gen.execute_runs W5 "TDD" "go" "/repo/benchmarks/TDD/go/run_all" 1
        "/repo/benchmarks/TDD/go" =
      .ok (Gen.runsStorage "TDD" "go",
        (if W5.pathExists (Gen.runsStorage "TDD" "go") then
            [Gen.Event.rmtree (Gen.runsStorage "TDD" "go")] else []) ++
          [Gen.Event.mkdir (Gen.runsStorage "TDD" "go")] ++
          (List.range' 1 1).flatMap (fun i =>
            [Gen.Event.mkdir (Gen.pjoin (Gen.runsStorage "TDD" "go") ("run_" ++ toString i)),
             Gen.Event.runProc ["bash", "/repo/benchmarks/TDD/go/run_all",
                 Gen.pjoin (Gen.runsStorage "TDD" "go") ("run_" ++ toString i)]
               (some "/repo/benchmarks/TDD/go")])) ∧
    ((List.range' 1 1).map (fun i =>
        Gen.pjoin (Gen.runsStorage "TDD" "go") ("run_" ++ toString i))).length = 1 ∧
    ((List.range' 1 1).map (fun i =>
        Gen.pjoin (Gen.runsStorage "TDD" "go") ("run_" ++ toString i))).Nodup :=
  execute_runs_trace_spec W5 "TDD" "go" "/repo/benchmarks/TDD/go/run_all" 1
    "/repo/benchmarks/TDD/go" (by decide) (fun _ _ => rfl)

/-- C6: the metrics-store aggregation fallback (modelled from the spec;
the script implementing this protocol belongs to the repository but is not
among the provided source files — the provided generate_changed_results.py
contains only the run-aggregation variant): when the generator exits 0 and
the expected results file was not created, non-empty standard output is
written verbatim as the results file; when the generator exits 0 and
neither the file nor non-empty standard output exists, a fatal error
naming the offending generator is raised. -/
theorem metrics_aggregate_fallback (r : Gen.CmdResult) (generator out_path : String)
    (h0 : r.returncode = 0) :
    (r.stdout ≠ "" →
       metricsAggregate r generator out_path false =
         .ok [Gen.Event.write out_path r.stdout]) ∧
    (r.stdout = "" →
       metricsAggregate r generator out_path false =
         .error ("generator wrote no results file and produced no output: " ++ generator)) := by
  constructor
  · intro hs
    unfold metricsAggregate
    simp [h0, hs]
  · intro hs
    unfold metricsAggregate
    simp [h0, hs]

theorem metrics_aggregate_fallback_witness :
    metricsAggregate { returncode := 0, stdout := "RESULTS", stderr := "" } "gen.py"
        "rules/TDD/go/RESULTS.md" false =
      .ok [Gen.Event.write "rules/TDD/go/RESULTS.md" "RESULTS"] ∧
    metricsAggregate { returncode := 0, stdout := "", stderr := "" } "gen.py"
        "rules/TDD/go/RESULTS.md" false =
      .error ("generator wrote no results file and produced no output: " ++ "gen.py") :=
  ⟨(metrics_aggregate_fallback { returncode := 0, stdout := "RESULTS", stderr := "" } "gen.py"
        "rules/TDD/go/RESULTS.md" rfl).1 (by decide),
   (metrics_aggregate_fallback { returncode := 0, stdout := "", stderr := "" } "gen.py"
        "rules/TDD/go/RESULTS.md" rfl).2 rfl⟩
